import Mathlib

/-!
Verification of jupyter_client's kernelspec module.

This file shallowly embeds jupyter_client/kernelspec.py: kernel spec
discovery (find_kernel_specs), loading (KernelSpec.from_resource_dir,
to_dict, to_json), name resolution (get_kernel_spec) and installation
(install_kernel_spec).  The filesystem is abstracted as a read-only
scanning interface for discovery, and as an explicit entry map for
installation.  Python dicts are modelled as association lists with
insertion-order semantics: inserting an existing key replaces the value
in place, inserting a new key appends at the end, exactly as CPython
dicts behave for the comprehension in _list_kernels_in and the
d.update(...) loop in find_kernel_specs.
-/

set_option autoImplicit false

namespace Kernelspec

/-- JSON values, as produced by Python's json.load. -/
inductive Json where
  | str (s : String)
  | num (n : Int)
  | bool (b : Bool)
  | null
  | arr (elts : List Json)
  | obj (fields : List (String × Json))

/-- Last-occurrence lookup in an association list.  Python's json.load
keeps the last binding of a duplicated object key, and this is also the
value a sequence of dict insertions for the same key leaves behind. -/
def lookupLast {α : Type} : List (String × α) → String → Option α
  | [], _ => none
  | p :: rest, k =>
    match lookupLast rest k with
    | some v => some v
    | none => if p.1 = k then some p.2 else none

/-- First-occurrence lookup; on dicts built by dictInsert the keys are
unique, so this is plain Python dict indexing d[k]. -/
def dictLookup {α : Type} : List (String × α) → String → Option α
  | [], _ => none
  | p :: rest, k => if p.1 = k then some p.2 else dictLookup rest k

/-- Python dict assignment d[k] = v: replace the value in place if the
key is present, otherwise append the new binding at the end. -/
def dictInsert {α : Type} : List (String × α) → String → α → List (String × α)
  | [], k, v => [(k, v)]
  | p :: rest, k, v => if p.1 = k then (k, v) :: rest else p :: dictInsert rest k v

/-- Python's d.update(l): insert every binding of l into d in order. -/
def dictUpdate {α : Type} (d l : List (String × α)) : List (String × α) :=
  l.foldl (fun acc p => dictInsert acc p.1 p.2) d

/-- Read-only view of the filesystem used by discovery and loading:
os.path.isdir, os.path.isfile, os.listdir, and the parsed JSON content
of a file (none when the file is missing or not valid JSON). -/
structure FileSystem where
  isDir : String → Bool
  isFile : String → Bool
  listdir : String → List String
  fileJson : String → Option Json

/-- Does s start with p?  Character-list implementation of Python's
str.startswith, reducible inside the kernel. -/
def strStartsWith (s p : String) : Bool :=
  p.data.isPrefixOf s.data

/-- Does s end with p?  Character-list implementation of Python's
str.endswith. -/
def strEndsWith (s p : String) : Bool :=
  p.data.reverse.isPrefixOf s.data.reverse

/-- Python's str.lower, character by character. -/
def strToLower (s : String) : String :=
  ⟨s.data.map Char.toLower⟩

/-- Drop the first n characters of s. -/
def strDrop (s : String) (n : Nat) : String :=
  ⟨s.data.drop n⟩

/-- os.path.join for two components (pjoin in the source). -/
def pjoin (a b : String) : String :=
  if strStartsWith b "/" then b
  else if a = "" ∨ strEndsWith a "/" then a ++ b
  else a ++ "/" ++ b

/-- os.path.basename: the part after the last slash. -/
def basename (p : String) : String :=
  ⟨p.data.foldl (fun acc c => if c = '/' then [] else acc ++ [c]) []⟩

/-- Is path a kernel directory?  A directory containing a file named
kernel.json (_is_kernel_dir in the source). -/
def _is_kernel_dir (fs : FileSystem) (path : String) : Bool :=
  fs.isDir path && fs.isFile (pjoin path "kernel.json")

/-- The entries the dict comprehension of _list_kernels_in runs over,
in os.listdir order, before dict semantics collapse duplicate keys:
one (f.lower(), pjoin dir f) pair per qualifying child f.  Empty when
dir is not a directory. -/
def scanEntries (fs : FileSystem) (dir : String) : List (String × String) :=
  if fs.isDir dir then
    (fs.listdir dir).filterMap (fun f =>
      if _is_kernel_dir fs (pjoin dir f) then some (strToLower f, pjoin dir f) else none)
  else []

/-- _list_kernels_in: mapping of kernel names to resource directories
found directly in dir; empty dict when dir is None or not a directory. -/
def _list_kernels_in (fs : FileSystem) (dir : Option String) : List (String × String) :=
  match dir with
  | none => []
  | some d =>
    if fs.isDir d then
      dictUpdate []
        ((fs.listdir d).filterMap (fun f =>
          if _is_kernel_dir fs (pjoin d f) then some (strToLower f, pjoin d f) else none))
    else []

/-- The configuration state of KernelSpecManager that discovery and
installation read: user_kernel_dir, the whitelist (a set of names,
modelled as a list whose membership is what matters) and the ordered
kernel_dirs search list. -/
structure KernelSpecManager where
  user_kernel_dir : String
  whitelist : List String
  kernel_dirs : List String

/-- KernelSpecManager.find_kernel_specs: merge the per-directory dicts
in kernel_dirs order (later directories overwrite earlier ones on key
collision via d.update), then, when the whitelist is non-empty, keep
only entries whose name is in the whitelist. -/
def find_kernel_specs (m : KernelSpecManager) (fs : FileSystem) : List (String × String) :=
  let d := m.kernel_dirs.foldl (fun d dir => dictUpdate d (_list_kernels_in fs (some dir))) []
  if m.whitelist.isEmpty then d
  else d.filter (fun p => m.whitelist.contains p.1)

/-- The merged dict of find_kernel_specs before the whitelist filter. -/
def mergedSpecs (m : KernelSpecManager) (fs : FileSystem) : List (String × String) :=
  m.kernel_dirs.foldl (fun d dir => dictUpdate d (_list_kernels_in fs (some dir))) []

/-- All raw scan entries of every kernel_dirs directory, concatenated
in search order. -/
def allScanEntries (m : KernelSpecManager) (fs : FileSystem) : List (String × String) :=
  m.kernel_dirs.foldr (fun dir acc => scanEntries fs dir ++ acc) []

/-- The KernelSpec data holder: the four trait-typed fields declared in
the class (argv as List, display_name and language as Unicode, env as
Dict) plus resource_dir.  Trait defaults are the empty list, the empty
string and the empty dict. -/
structure KernelSpec where
  argv : List Json
  display_name : String
  language : String
  env : List (String × Json)
  resource_dir : String

/-- Errors a KernelSpec lookup or load can raise. -/
inductive KSError where
  | noSuchKernel (name : String)
  | loadError
  | typeError
  | traitError

/-- Coerce a looked-up JSON value into the List trait argv: missing
means the trait default (empty list), a JSON array is taken as is, and
any other value is a trait type error (none). -/
def coerceArgv : Option Json → Option (List Json)
  | none => some []
  | some (Json.arr l) => some l
  | some _ => none

/-- Coerce a looked-up JSON value into a Unicode trait (display_name,
language): missing defaults to the empty string. -/
def coerceStr : Option Json → Option String
  | none => some ""
  | some (Json.str s) => some s
  | some _ => none

/-- Coerce a looked-up JSON value into the Dict trait env: missing
defaults to the empty dict. -/
def coerceEnv : Option Json → Option (List (String × Json))
  | none => some []
  | some (Json.obj o) => some o
  | some _ => none

/-- Construct a KernelSpec from a parsed kernel.json object, as
cls(resource_dir=resource_dir, **kernel_dict) does: each declared trait
is taken from the matching JSON key when present (trait validation
rejects values of the wrong shape), keys naming no trait are ignored.
The keyword-spreading behaviour of the external trait framework is
modelled from the spec: unknown keys ignored, the target attribute set
fixed to argv, display_name, language, env. -/
def kernelSpecOfObj (resource_dir : String) (kvs : List (String × Json)) :
    Except KSError KernelSpec :=
  match coerceArgv (lookupLast kvs "argv"), coerceStr (lookupLast kvs "display_name"),
        coerceStr (lookupLast kvs "language"), coerceEnv (lookupLast kvs "env") with
  | some a, some dn, some lg, some e => Except.ok ⟨a, dn, lg, e, resource_dir⟩
  | _, _, _, _ => Except.error KSError.traitError

/-- KernelSpec.from_resource_dir: read resource_dir/kernel.json, parse
it as JSON (a missing or unparseable file raises, modelled as
loadError; a parse result that is not an object cannot be spread as
keyword arguments, modelled as typeError) and build the KernelSpec. -/
def KernelSpec.from_resource_dir (fs : FileSystem) (resource_dir : String) :
    Except KSError KernelSpec :=
  match fs.fileJson (pjoin resource_dir "kernel.json") with
  | none => Except.error KSError.loadError
  | some (Json.obj kvs) => kernelSpecOfObj resource_dir kvs
  | some _ => Except.error KSError.typeError

/-- KernelSpec.to_dict: the dict literal with exactly the keys argv,
env, display_name, language in that insertion order. -/
def KernelSpec.to_dict (s : KernelSpec) : List (String × Json) :=
  [("argv", Json.arr s.argv),
   ("env", Json.obj s.env),
   ("display_name", Json.str s.display_name),
   ("language", Json.str s.language)]

mutual

/-- json.dumps with default separators. -/
def Json.encode : Json → String
  | Json.str s => "\"" ++ s ++ "\""
  | Json.num n => toString n
  | Json.bool b => if b then "true" else "false"
  | Json.null => "null"
  | Json.arr l => "[" ++ Json.encodeElems l ++ "]"
  | Json.obj kvs => "\x7b" ++ Json.encodeFields kvs ++ "\x7d"

/-- Comma-separated encoding of array elements. -/
def Json.encodeElems : List Json → String
  | [] => ""
  | [x] => Json.encode x
  | x :: y :: xs => Json.encode x ++ ", " ++ Json.encodeElems (y :: xs)

/-- Comma-separated encoding of object fields. -/
def Json.encodeFields : List (String × Json) → String
  | [] => ""
  | [(k, v)] => "\"" ++ k ++ "\": " ++ Json.encode v
  | (k, v) :: q :: xs => "\"" ++ k ++ "\": " ++ Json.encode v ++ ", " ++ Json.encodeFields (q :: xs)

end

/-- KernelSpec.to_json: the JSON encoding of to_dict. -/
def KernelSpec.to_json (s : KernelSpec) : String :=
  Json.encode (Json.obj s.to_dict)

/-- KernelSpecManager.get_kernel_spec: look the lowercased requested
name up in find_kernel_specs; a missing key raises NoSuchKernel
carrying the original (non-lowercased) name, a present key loads the
spec from its resource directory. -/
def get_kernel_spec (m : KernelSpecManager) (fs : FileSystem) (kernel_name : String) :
    Except KSError KernelSpec :=
  let d := find_kernel_specs m fs
  match dictLookup d (strToLower kernel_name) with
  | none => Except.error (KSError.noSuchKernel kernel_name)
  | some resource_dir => KernelSpec.from_resource_dir fs resource_dir

/-- A filesystem entry is a directory or a file. -/
inductive EntryKind where
  | dirE
  | fileE
deriving DecidableEq

/-- Mutable filesystem state for install_kernel_spec: a finite map from
paths to entry kinds. -/
structure World where
  entries : List (String × EntryKind)

/-- The kind recorded for a path, if any. -/
def World.kindOf (w : World) (p : String) : Option EntryKind :=
  (w.entries.find? (fun q => q.1 == p)).map (fun q => q.2)

/-- os.path.exists. -/
def World.existsPath (w : World) (p : String) : Bool :=
  (w.kindOf p).isSome

/-- os.path.isdir on the install-time state. -/
def World.isDirW (w : World) (p : String) : Bool :=
  w.kindOf p == some EntryKind.dirE

/-- OS errors install_kernel_spec can surface. -/
inductive OSError where
  | fileExists
  | notFound
deriving DecidableEq

/-- shutil.rmtree: remove the path and everything below it. -/
def rmtree (w : World) (p : String) : World :=
  ⟨w.entries.filter (fun q => !(q.1 == p || strStartsWith q.1 (p ++ "/")))⟩

/-- shutil.copytree src dst: fails with FileExistsError when dst
already exists (os.makedirs raises), fails with FileNotFoundError when
src is not a directory; otherwise creates dst and copies the whole
subtree of src under dst.  On failure the state is unchanged. -/
def copytree (w : World) (src dst : String) : World × Option OSError :=
  if w.existsPath dst then (w, some OSError.fileExists)
  else if !(w.isDirW src) then (w, some OSError.notFound)
  else
    (⟨w.entries ++ (dst, EntryKind.dirE) ::
        (w.entries.filterMap (fun q =>
          if strStartsWith q.1 (src ++ "/") then
            some (dst ++ "/" ++ strDrop q.1 (src.length + 1), q.2)
          else none))⟩, none)

/-- KernelSpecManager._get_destination_dir: under user_kernel_dir for a
user install, else under kernels/ below the first system path
(SYSTEM_JUPYTER_PATH[0], passed in as system_jupyter_path). -/
def _get_destination_dir (system_jupyter_path : List String) (m : KernelSpecManager)
    (kernel_name : String) (user : Bool) : String :=
  if user then pjoin m.user_kernel_dir kernel_name
  else pjoin (pjoin (system_jupyter_path.headD "") "kernels") kernel_name

/-- KernelSpecManager.install_kernel_spec: a falsy kernel_name (None or
the empty string) is replaced by the basename of source_dir; the name
is lowercased; with replace set, an existing destination directory is
removed recursively; then source_dir is copied to the destination.  The
returned pair is the final filesystem state and the raised OS error, if
any. -/
def install_kernel_spec (system_jupyter_path : List String) (m : KernelSpecManager)
    (w : World) (source_dir : String) (kernel_name : Option String)
    (user replace : Bool) : World × Option OSError :=
  let kn0 :=
    match kernel_name with
    | none => basename source_dir
    | some s => if s = "" then basename source_dir else s
  let kn := strToLower kn0
  let destination := _get_destination_dir system_jupyter_path m kn user
  let w1 := if replace && w.isDirW destination then rmtree w destination else w
  copytree w1 source_dir destination

/-! ## Association list and dict lemmas -/

/-- Left-biased choice on options, the shape lookup lemmas compose in. -/
def optOr {α : Type} : Option α → Option α → Option α
  | some v, _ => some v
  | none, b => b

theorem optOr_none_right {α : Type} (a : Option α) : optOr a none = a := by
  cases a <;> rfl

theorem optOr_assoc {α : Type} (a b c : Option α) :
    optOr (optOr a b) c = optOr a (optOr b c) := by
  cases a <;> rfl

theorem dictLookup_dictInsert {α : Type} (d : List (String × α)) (k v : String) (x : α) :
    dictLookup (dictInsert d k x) v = if v = k then some x else dictLookup d v := by
  induction d with
  | nil =>
    by_cases h : v = k
    · simp [dictInsert, dictLookup, h]
    · have h' : ¬ k = v := fun e => h e.symm
      simp [dictInsert, dictLookup, h, h']
  | cons p rest ih =>
    by_cases hp : p.1 = k
    · subst hp
      by_cases hv : v = p.1
      · simp [dictInsert, dictLookup, hv]
      · have hv' : ¬ p.1 = v := fun e => hv e.symm
        simp [dictInsert, dictLookup, hv, hv']
    · by_cases hv : p.1 = v
      · have hvk : ¬ v = k := fun e => hp (hv.trans e)
        simp [dictInsert, dictLookup, hp, hv, hvk]
      · simp [dictInsert, dictLookup, hp, hv, ih]

theorem dictLookup_dictUpdate {α : Type} (l d : List (String × α)) (k : String) :
    dictLookup (dictUpdate d l) k = optOr (lookupLast l k) (dictLookup d k) := by
  induction l generalizing d with
  | nil => rfl
  | cons p rest ih =>
    show dictLookup (dictUpdate (dictInsert d p.1 p.2) rest) k = _
    rw [ih, dictLookup_dictInsert]
    cases hr : lookupLast rest k with
    | some v => simp [lookupLast, hr, optOr]
    | none =>
      by_cases hp : p.1 = k
      · simp [lookupLast, hr, hp, optOr]
      · have : ¬ k = p.1 := fun h => hp h.symm
        simp [lookupLast, hr, hp, this, optOr]

theorem lookupLast_append {α : Type} (l₁ l₂ : List (String × α)) (k : String) :
    lookupLast (l₁ ++ l₂) k = optOr (lookupLast l₂ k) (lookupLast l₁ k) := by
  induction l₁ with
  | nil => simp [lookupLast, optOr_none_right]
  | cons p rest ih =>
    show lookupLast (p :: (rest ++ l₂)) k = _
    simp only [lookupLast, ih]
    cases h₂ : lookupLast l₂ k <;> cases h₁ : lookupLast rest k <;> simp [optOr]

theorem lookupLast_eq_some_mem {α : Type} {l : List (String × α)} {k : String} {v : α}
    (h : lookupLast l k = some v) : (k, v) ∈ l := by
  induction l with
  | nil => simp [lookupLast] at h
  | cons p rest ih =>
    simp only [lookupLast] at h
    cases hr : lookupLast rest k with
    | some w =>
      rw [hr] at h
      exact List.mem_cons_of_mem _ (ih (hr.trans h))
    | none =>
      rw [hr] at h
      by_cases hp : p.1 = k
      · rw [if_pos hp] at h
        have : p = (k, v) := by
          cases p
          cases h
          cases hp
          rfl
        rw [← this]
        exact List.mem_cons_self _ _
      · rw [if_neg hp] at h
        cases h

theorem mem_lookupLast_isSome {α : Type} {l : List (String × α)} {k : String} {v : α}
    (h : (k, v) ∈ l) : (lookupLast l k).isSome := by
  induction l with
  | nil => cases h
  | cons p rest ih =>
    simp only [lookupLast]
    cases hr : lookupLast rest k with
    | some w => rfl
    | none =>
      rcases List.mem_cons.mp h with hph | hm
      · rw [← hph]
        simp
      · have := ih hm
        rw [hr] at this
        cases this

/-- An association list whose keys are pairwise distinct, the invariant
every dict built by dictInsert keeps. -/
def NodupKeys {α : Type} (l : List (String × α)) : Prop :=
  (l.map Prod.fst).Nodup

theorem mem_keys_dictInsert {α : Type} {d : List (String × α)} {k a : String} {x : α}
    (h : a ∈ (dictInsert d k x).map Prod.fst) : a = k ∨ a ∈ d.map Prod.fst := by
  induction d with
  | nil =>
    simp [dictInsert] at h
    exact Or.inl h
  | cons p rest ih =>
    by_cases hp : p.1 = k
    · simp [dictInsert, hp] at h
      rcases h with h | h
      · exact Or.inl h
      · exact Or.inr (by simp [h])
    · simp [dictInsert, hp] at h
      rcases h with h | ⟨b, hb⟩
      · exact Or.inr (by simp [h])
      · rcases ih (List.mem_map.mpr ⟨(a, b), hb, rfl⟩) with h' | h'
        · exact Or.inl h'
        · exact Or.inr (by simp [h'])

theorem nodupKeys_dictInsert {α : Type} {d : List (String × α)} (k : String) (x : α)
    (h : NodupKeys d) : NodupKeys (dictInsert d k x) := by
  induction d with
  | nil => simp [NodupKeys, dictInsert]
  | cons p rest ih =>
    rw [NodupKeys, List.map_cons, List.nodup_cons] at h
    by_cases hp : p.1 = k
    · rw [NodupKeys, dictInsert, if_pos hp, List.map_cons, List.nodup_cons]
      exact ⟨hp ▸ h.1, h.2⟩
    · rw [NodupKeys, dictInsert, if_neg hp, List.map_cons, List.nodup_cons]
      refine ⟨fun hmem => ?_, ih h.2⟩
      rcases mem_keys_dictInsert hmem with h' | h'
      · exact hp h'
      · exact h.1 h'

theorem nodupKeys_dictUpdate {α : Type} (l : List (String × α)) :
    ∀ d : List (String × α), NodupKeys d → NodupKeys (dictUpdate d l) := by
  induction l with
  | nil => exact fun d h => h
  | cons p rest ih =>
    intro d h
    exact ih (dictInsert d p.1 p.2) (nodupKeys_dictInsert p.1 p.2 h)

theorem lookupLast_eq_none_of_not_mem_keys {α : Type} {l : List (String × α)} {k : String}
    (h : k ∉ l.map Prod.fst) : lookupLast l k = none := by
  induction l with
  | nil => rfl
  | cons p rest ih =>
    rw [List.map_cons] at h
    have hp : ¬ p.1 = k := fun e => h (by simp [e])
    have hr : k ∉ rest.map Prod.fst := fun e => h (by simp [e])
    simp [lookupLast, ih hr, hp]

theorem lookupLast_eq_dictLookup_of_nodup {α : Type} {l : List (String × α)}
    (h : NodupKeys l) (k : String) : lookupLast l k = dictLookup l k := by
  induction l with
  | nil => rfl
  | cons p rest ih =>
    rw [NodupKeys, List.map_cons, List.nodup_cons] at h
    by_cases hp : p.1 = k
    · have : lookupLast rest k = none :=
        lookupLast_eq_none_of_not_mem_keys (hp ▸ h.1)
      simp [lookupLast, dictLookup, this, hp]
    · cases hr : lookupLast rest k with
      | some v => simp [lookupLast, dictLookup, hr, hp, ← ih h.2, hr]
      | none => simp [lookupLast, dictLookup, hr, hp, ← ih h.2, hr]

/-- Looking up in the freshly built dict of a comprehension is
last-occurrence lookup over the raw comprehension entries. -/
theorem lookupLast_dictUpdate_nil {α : Type} (l : List (String × α)) (k : String) :
    lookupLast (dictUpdate [] l) k = lookupLast l k := by
  rw [lookupLast_eq_dictLookup_of_nodup (nodupKeys_dictUpdate l [] (by simp [NodupKeys])),
      dictLookup_dictUpdate]
  cases lookupLast l k <;> rfl

theorem lookupLast_list_kernels_in (fs : FileSystem) (dir : String) (k : String) :
    lookupLast (_list_kernels_in fs (some dir)) k = lookupLast (scanEntries fs dir) k := by
  by_cases h : fs.isDir dir
  · simp only [_list_kernels_in, scanEntries, h, if_pos, lookupLast_dictUpdate_nil]
  · simp [_list_kernels_in, scanEntries, h]

theorem dictLookup_mergedSpecs_aux (fs : FileSystem) (dirs : List String) (k : String) :
    ∀ d0 : List (String × String),
      dictLookup (dirs.foldl (fun d dir => dictUpdate d (_list_kernels_in fs (some dir))) d0) k
        = optOr (lookupLast (dirs.foldr (fun dir acc => scanEntries fs dir ++ acc) []) k)
            (dictLookup d0 k) := by
  induction dirs with
  | nil => intro d0; rfl
  | cons dir dirs ih =>
    intro d0
    show dictLookup (dirs.foldl _ (dictUpdate d0 (_list_kernels_in fs (some dir)))) k = _
    rw [ih, dictLookup_dictUpdate, List.foldr_cons, lookupLast_append,
        lookupLast_list_kernels_in, optOr_assoc]

/-- Lookup in the merged (pre-whitelist) dict is last-occurrence lookup
over all raw scan entries in kernel_dirs order. -/
theorem dictLookup_mergedSpecs (m : KernelSpecManager) (fs : FileSystem) (k : String) :
    dictLookup (mergedSpecs m fs) k = lookupLast (allScanEntries m fs) k := by
  rw [mergedSpecs, dictLookup_mergedSpecs_aux, allScanEntries]
  cases lookupLast (m.kernel_dirs.foldr (fun dir acc => scanEntries fs dir ++ acc) []) k <;> rfl

theorem find_eq_merged (m : KernelSpecManager) (fs : FileSystem)
    (hw : m.whitelist = []) : find_kernel_specs m fs = mergedSpecs m fs := by
  rw [find_kernel_specs, mergedSpecs, hw]
  rfl

theorem find_eq_filter_merged (m : KernelSpecManager) (fs : FileSystem)
    (hw : m.whitelist ≠ []) :
    find_kernel_specs m fs
      = (mergedSpecs m fs).filter (fun p => m.whitelist.contains p.1) := by
  rw [find_kernel_specs, mergedSpecs, if_neg]
  rw [List.isEmpty_iff]
  exact hw

/-- A directory dir of kernel_dirs together with a listed child name
that the scan accepts: dir is a directory and dir/name is a kernel
directory. -/
def Qualifies (m : KernelSpecManager) (fs : FileSystem) (dir name : String) : Prop :=
  dir ∈ m.kernel_dirs ∧ fs.isDir dir = true ∧ name ∈ fs.listdir dir ∧
    _is_kernel_dir fs (pjoin dir name) = true

theorem mem_scanEntries {fs : FileSystem} {dir k v : String} :
    (k, v) ∈ scanEntries fs dir ↔
      fs.isDir dir = true ∧ ∃ name, name ∈ fs.listdir dir ∧
        _is_kernel_dir fs (pjoin dir name) = true ∧
        k = strToLower name ∧ v = pjoin dir name := by
  constructor
  · intro h
    by_cases hd : fs.isDir dir
    · rw [scanEntries, if_pos hd] at h
      rcases List.mem_filterMap.mp h with ⟨name, hname, hf⟩
      by_cases hk : _is_kernel_dir fs (pjoin dir name)
      · rw [if_pos hk] at hf
        have hf' := Option.some.inj hf
        refine ⟨hd, name, hname, hk, ?_, ?_⟩
        · exact (congrArg Prod.fst hf').symm
        · exact (congrArg Prod.snd hf').symm
      · rw [if_neg hk] at hf
        cases hf
    · rw [scanEntries, if_neg hd] at h
      cases h
  · rintro ⟨hd, name, hname, hk, hkl, hv⟩
    rw [scanEntries, if_pos hd]
    exact List.mem_filterMap.mpr ⟨name, hname, by rw [if_pos hk, hkl, hv]⟩

theorem mem_allScanEntries {m : KernelSpecManager} {fs : FileSystem} {k v : String} :
    (k, v) ∈ allScanEntries m fs ↔
      ∃ dir, dir ∈ m.kernel_dirs ∧ (k, v) ∈ scanEntries fs dir := by
  rw [allScanEntries]
  induction m.kernel_dirs with
  | nil => simp
  | cons d dirs ih =>
    rw [List.foldr_cons, List.mem_append, ih]
    constructor
    · rintro (h | ⟨dir, hdir, h⟩)
      · exact ⟨d, by simp, h⟩
      · exact ⟨dir, by simp [hdir], h⟩
    · rintro ⟨dir, hdir, h⟩
      rcases List.mem_cons.mp hdir with e | hdir'
      · exact Or.inl (e ▸ h)
      · exact Or.inr ⟨dir, hdir', h⟩

theorem mem_allScanEntries_qualifies {m : KernelSpecManager} {fs : FileSystem} {k v : String} :
    (k, v) ∈ allScanEntries m fs ↔
      ∃ dir name, Qualifies m fs dir name ∧ k = strToLower name ∧ v = pjoin dir name := by
  rw [mem_allScanEntries]
  constructor
  · rintro ⟨dir, hdir, h⟩
    rcases mem_scanEntries.mp h with ⟨hd, name, hname, hk, hkl, hv⟩
    exact ⟨dir, name, ⟨hdir, hd, hname, hk⟩, hkl, hv⟩
  · rintro ⟨dir, name, ⟨hdir, hd, hname, hk⟩, hkl, hv⟩
    exact ⟨dir, hdir, mem_scanEntries.mpr ⟨hd, name, hname, hk, hkl, hv⟩⟩

theorem scanFoldr_append (fs : FileSystem) (l₁ l₂ : List String) :
    (l₁ ++ l₂).foldr (fun dir acc => scanEntries fs dir ++ acc) []
      = l₁.foldr (fun dir acc => scanEntries fs dir ++ acc) []
        ++ l₂.foldr (fun dir acc => scanEntries fs dir ++ acc) [] := by
  induction l₁ with
  | nil => rfl
  | cons d l₁ ih =>
    rw [List.cons_append, List.foldr_cons, List.foldr_cons, ih, List.append_assoc]

theorem lookupLast_scanFoldr_none (fs : FileSystem) (post : List String) (k : String)
    (h : ∀ d, d ∈ post → lookupLast (scanEntries fs d) k = none) :
    lookupLast (post.foldr (fun dir acc => scanEntries fs dir ++ acc) []) k = none := by
  induction post with
  | nil => rfl
  | cons d post ih =>
    rw [List.foldr_cons, lookupLast_append,
        ih (fun d' hd' => h d' (List.mem_cons_of_mem _ hd')),
        h d (List.mem_cons_self _ _)]
    rfl

/-! ## Discovery fixtures -/

/-- Filesystem with one search directory s1 holding one qualifying
kernel directory alpha. -/
def soloFS : FileSystem :=
  ⟨fun d => d = "s1" || d = "s1/alpha",
   fun f => f = "s1/alpha/kernel.json",
   fun d => if d = "s1" then ["alpha"] else [],
   fun _ => none⟩

/-- Manager searching only s1, with an empty whitelist. -/
def soloM : KernelSpecManager := ⟨"/u/kernels", [], ["s1"]⟩

/-- Filesystem where search directories d1 and d2 each hold a
qualifying kernel directory named foo. -/
def collideFS : FileSystem :=
  ⟨fun d => d = "d1" || d = "d2" || d = "d1/foo" || d = "d2/foo",
   fun f => f = "d1/foo/kernel.json" || f = "d2/foo/kernel.json",
   fun d => if d = "d1" then ["foo"] else if d = "d2" then ["foo"] else [],
   fun _ => none⟩

/-- Manager searching d1 then d2, with an empty whitelist. -/
def collideM : KernelSpecManager := ⟨"/u/kernels", [], ["d1", "d2"]⟩

/-- Filesystem where d1, d2 and d3 each hold a qualifying kernel
directory named foo. -/
def collide3FS : FileSystem :=
  ⟨fun d => d = "d1" || d = "d2" || d = "d3" ||
      d = "d1/foo" || d = "d2/foo" || d = "d3/foo",
   fun f => f = "d1/foo/kernel.json" || f = "d2/foo/kernel.json" || f = "d3/foo/kernel.json",
   fun d => if d = "d1" || d = "d2" || d = "d3" then ["foo"] else [],
   fun _ => none⟩

/-- Manager searching d1, d2 then d3, with an empty whitelist. -/
def collide3M : KernelSpecManager := ⟨"/u/kernels", [], ["d1", "d2", "d3"]⟩

/-! ## Claim C1 -/

/-- C1 counterexample: with kernel_dirs = [d1, d2] and both directories
holding a qualifying kernel directory foo, d1 qualifies (and the
whitelist is empty), yet find_kernel_specs does not contain the entry
foo -> d1/foo claimed by the if-and-only-if: the later directory's
entry overwrote it. -/
theorem find_kernel_specs_c1_counterexample :
    ("d1" ∈ collideM.kernel_dirs ∧ collideM.whitelist = [] ∧
      collideFS.isDir "d1" = true ∧ "foo" ∈ collideFS.listdir "d1" ∧
      _is_kernel_dir collideFS (pjoin "d1" "foo") = true) ∧
    dictLookup (find_kernel_specs collideM collideFS) (strToLower "foo")
      ≠ some (pjoin "d1" "foo") := by
  decide

/-- C1 (amended): with an empty whitelist, and provided no two distinct
qualifying (directory, child) pairs share a lowercased name, the
mapping returned by find_kernel_specs contains the entry
name.lower() -> dir/name exactly when dir is a kernel_dirs entry that
is a directory with an immediate child name that is itself a directory
containing a file named kernel.json; a kernel_dirs entry that is not a
directory contributes zero entries, and an empty kernel_dirs list
yields an empty mapping. -/
theorem find_kernel_specs_entry_characterization (m : KernelSpecManager) (fs : FileSystem)
    (hw : m.whitelist = [])
    (huniq : ∀ d₁ n₁ d₂ n₂, Qualifies m fs d₁ n₁ → Qualifies m fs d₂ n₂ →
      strToLower n₁ = strToLower n₂ → d₁ = d₂ ∧ n₁ = n₂) :
    (m.kernel_dirs = [] → find_kernel_specs m fs = []) ∧
    ∀ k v, dictLookup (find_kernel_specs m fs) k = some v ↔
      ∃ dir name, Qualifies m fs dir name ∧ k = strToLower name ∧ v = pjoin dir name := by
  constructor
  · intro hd
    rw [find_eq_merged m fs hw, mergedSpecs, hd]
    rfl
  · intro k v
    rw [find_eq_merged m fs hw, dictLookup_mergedSpecs]
    constructor
    · intro h
      exact mem_allScanEntries_qualifies.mp (lookupLast_eq_some_mem h)
    · rintro ⟨dir, name, hq, hkl, hv⟩
      have hmem : (k, v) ∈ allScanEntries m fs :=
        mem_allScanEntries_qualifies.mpr ⟨dir, name, hq, hkl, hv⟩
      have hsome := mem_lookupLast_isSome hmem
      cases hlk : lookupLast (allScanEntries m fs) k with
      | none =>
        rw [hlk] at hsome
        cases hsome
      | some v' =>
        rcases mem_allScanEntries_qualifies.mp (lookupLast_eq_some_mem hlk)
          with ⟨dir', name', hq', hkl', hv'⟩
        obtain ⟨ed, en⟩ := huniq dir' name' dir name hq' hq (hkl'.symm.trans hkl)
        rw [hv', ed, en, ← hv]

/-- C1 witness: on the one-directory fixture every hypothesis holds and
the characterization produces the entry alpha -> s1/alpha. -/
theorem find_kernel_specs_entry_characterization_witness :
    dictLookup (find_kernel_specs soloM soloFS) "alpha" = some "s1/alpha" :=
  ((find_kernel_specs_entry_characterization soloM soloFS rfl (by
      intro d₁ n₁ d₂ n₂ h₁ h₂ _
      obtain ⟨hd₁, _, hn₁, _⟩ := h₁
      obtain ⟨hd₂, _, hn₂, _⟩ := h₂
      simp [soloM] at hd₁ hd₂
      subst hd₁
      subst hd₂
      simp [soloFS] at hn₁ hn₂
      exact ⟨rfl, hn₁.trans hn₂.symm⟩)).2 "alpha" "s1/alpha").mpr
    ⟨"s1", "alpha", ⟨by decide, by decide, by decide, by decide⟩, by decide, by decide⟩

/-! ## Claim C2 -/

/-- C2 counterexample: with kernel_dirs = [d1, d2, d3] all holding a
qualifying kernel directory foo, D1 = d1 and D2 = d2 satisfy the
claim's premises (d1 earlier than d2, both qualifying, same lowercased
name), yet the mapping does not send foo to d2's child: the still later
d3 overwrote it. -/
theorem find_kernel_specs_c2_counterexample :
    (collide3M.kernel_dirs = ["d1", "d2", "d3"] ∧ collide3M.whitelist = [] ∧
      collide3FS.isDir "d1" = true ∧ "foo" ∈ collide3FS.listdir "d1" ∧
      _is_kernel_dir collide3FS (pjoin "d1" "foo") = true ∧
      collide3FS.isDir "d2" = true ∧ "foo" ∈ collide3FS.listdir "d2" ∧
      _is_kernel_dir collide3FS (pjoin "d2" "foo") = true) ∧
    dictLookup (find_kernel_specs collide3M collide3FS) (strToLower "foo")
      ≠ some (pjoin "d2" "foo") := by
  decide

/-- C2 (amended): with no whitelist filtering, when kernel_dirs splits
as pre ++ D2 :: post, D2's scan yields v as its last entry for
lowercased name k, and no directory after D2 contributes an entry for
k, then find_kernel_specs maps k to v: on a name collision the entry of
the last contributing kernel_dirs directory wins, so the later of two
colliding directories D1 and D2 wins exactly when no directory after D2
also contributes the name. -/
theorem find_kernel_specs_later_dir_wins (m : KernelSpecManager) (fs : FileSystem)
    (hw : m.whitelist = []) (pre post : List String) (d₂ k v : String)
    (hsplit : m.kernel_dirs = pre ++ d₂ :: post)
    (hd₂ : lookupLast (scanEntries fs d₂) k = some v)
    (hpost : ∀ d, d ∈ post → lookupLast (scanEntries fs d) k = none) :
    dictLookup (find_kernel_specs m fs) k = some v := by
  rw [find_eq_merged m fs hw, dictLookup_mergedSpecs, allScanEntries, hsplit,
      scanFoldr_append, List.foldr_cons, lookupLast_append, lookupLast_append,
      lookupLast_scanFoldr_none fs post k hpost, hd₂]
  rfl

/-- C2 witness: with kernel_dirs = [d1, d2] and both directories
holding a qualifying foo, the entry of the later directory d2 wins. -/
theorem find_kernel_specs_later_dir_wins_witness :
    dictLookup (find_kernel_specs collideM collideFS) "foo" = some "d2/foo" :=
  find_kernel_specs_later_dir_wins collideM collideFS rfl ["d1"] [] "d2" "foo" "d2/foo"
    rfl (by decide) (fun d hd => absurd hd (List.not_mem_nil d))

/-! ## Claim C3 -/

/-- C3: find_kernel_specs returns exactly the merged entries whose name
passes the whitelist: all of them when the whitelist is empty (nothing
is dropped), and exactly those whose lowercased name is a whitelist
member when it is non-empty. -/
theorem find_kernel_specs_whitelist_exact (m : KernelSpecManager) (fs : FileSystem)
    (k v : String) :
    (k, v) ∈ find_kernel_specs m fs ↔
      (k, v) ∈ mergedSpecs m fs ∧ (m.whitelist = [] ∨ k ∈ m.whitelist) := by
  by_cases hw : m.whitelist = []
  · rw [find_eq_merged m fs hw]
    simp [hw]
  · rw [find_eq_filter_merged m fs hw, List.mem_filter]
    simp [hw, List.elem_iff]

/-! ## Claim C4 -/

/-- Filesystem with one search directory w1 holding one qualifying
kernel directory python3. -/
def wlFS : FileSystem :=
  ⟨fun d => d = "w1" || d = "w1/python3",
   fun f => f = "w1/python3/kernel.json",
   fun d => if d = "w1" then ["python3"] else [],
   fun _ => none⟩

/-- Manager whose whitelist holds the cased name Python3. -/
def wlM : KernelSpecManager := ⟨"/u/kernels", ["Python3"], ["w1"]⟩

/-- Manager whose whitelist holds the lowercase name python3. -/
def wlM2 : KernelSpecManager := ⟨"/u/kernels", ["python3"], ["w1"]⟩

/-- C4 counterexample: the whitelist containing only the casing variant
Python3 does NOT let the discovered kernel python3 survive: membership
is tested literally against the lowercased discovered name, so the
entry is dropped, contradicting case-insensitive matching. -/
theorem find_kernel_specs_c4_counterexample :
    (wlM.whitelist = ["Python3"] ∧ strToLower "Python3" = "python3" ∧
      ("python3", "w1/python3") ∈ mergedSpecs wlM wlFS) ∧
    ("python3", "w1/python3") ∉ find_kernel_specs wlM wlFS := by
  decide

/-- C4 (amended): whitelist membership is matched literally, not
case-insensitively: with a non-empty whitelist a discovered entry with
lowercased name k survives the filter exactly when k itself is a
whitelist member; a whitelist holding only a differently-cased variant
drops the entry. -/
theorem find_kernel_specs_whitelist_literal (m : KernelSpecManager) (fs : FileSystem)
    (hw : m.whitelist ≠ []) (k v : String) :
    (k, v) ∈ find_kernel_specs m fs ↔
      (k, v) ∈ mergedSpecs m fs ∧ k ∈ m.whitelist := by
  rw [find_eq_filter_merged m fs hw, List.mem_filter]
  simp [List.elem_iff]

/-- C4 witness: with the literally lowercase whitelist python3 the
discovered python3 entry survives the filter. -/
theorem find_kernel_specs_whitelist_literal_witness :
    ("python3", "w1/python3") ∈ find_kernel_specs wlM2 wlFS :=
  (find_kernel_specs_whitelist_literal wlM2 wlFS (by decide) "python3" "w1/python3").mpr
    ⟨by decide, by decide⟩

/-! ## Claim C5 -/

/-- C5: get_kernel_spec looks the lowercased requested name up in
find_kernel_specs; when absent it raises NoSuchKernel carrying the
originally requested name with its casing intact, when present it
returns KernelSpec.from_resource_dir on the mapped resource
directory. -/
theorem get_kernel_spec_resolution (m : KernelSpecManager) (fs : FileSystem)
    (kernel_name : String) :
    (dictLookup (find_kernel_specs m fs) (strToLower kernel_name) = none →
      get_kernel_spec m fs kernel_name
        = Except.error (KSError.noSuchKernel kernel_name)) ∧
    (∀ rd, dictLookup (find_kernel_specs m fs) (strToLower kernel_name) = some rd →
      get_kernel_spec m fs kernel_name = KernelSpec.from_resource_dir fs rd) := by
  constructor
  · intro h
    show (match dictLookup (find_kernel_specs m fs) (strToLower kernel_name) with
      | none => Except.error (KSError.noSuchKernel kernel_name)
      | some resource_dir => KernelSpec.from_resource_dir fs resource_dir) = _
    rw [h]
  · intro rd h
    show (match dictLookup (find_kernel_specs m fs) (strToLower kernel_name) with
      | none => Except.error (KSError.noSuchKernel kernel_name)
      | some resource_dir => KernelSpec.from_resource_dir fs resource_dir) = _
    rw [h]

/-- C5 witness: the missing name NonExistent raises NoSuchKernel with
its original casing, and the cased request Alpha resolves to the
resource directory registered for alpha. -/
theorem get_kernel_spec_resolution_witness :
    get_kernel_spec soloM soloFS "NonExistent"
        = Except.error (KSError.noSuchKernel "NonExistent") ∧
      get_kernel_spec soloM soloFS "Alpha"
        = KernelSpec.from_resource_dir soloFS "s1/alpha" :=
  ⟨(get_kernel_spec_resolution soloM soloFS "NonExistent").1 (by decide),
   (get_kernel_spec_resolution soloM soloFS "Alpha").2 "s1/alpha" (by decide)⟩

/-! ## Claim C6 -/

/-- C6: to_dict emits exactly the keys argv, env, display_name and
language, each bound to the corresponding field, resource_dir never
appears among the keys, and to_json is the JSON encoding of that
mapping.  The embedding is a pure function of the KernelSpec value, so
to_dict has no side effects. -/
theorem to_dict_serialization (s : KernelSpec) :
    s.to_dict.map Prod.fst = ["argv", "env", "display_name", "language"] ∧
    dictLookup s.to_dict "argv" = some (Json.arr s.argv) ∧
    dictLookup s.to_dict "env" = some (Json.obj s.env) ∧
    dictLookup s.to_dict "display_name" = some (Json.str s.display_name) ∧
    dictLookup s.to_dict "language" = some (Json.str s.language) ∧
    dictLookup s.to_dict "resource_dir" = none ∧
    s.to_json = Json.encode (Json.obj s.to_dict) :=
  ⟨rfl, rfl, rfl, rfl, rfl, rfl, rfl⟩

/-! ## Claim C7 -/

/-- Spec-side reading of the argv field: the value of a matching JSON
key, or the empty sequence when the key is missing. -/
def specArgv (kvs : List (String × Json)) : List Json :=
  match lookupLast kvs "argv" with
  | some (Json.arr l) => l
  | _ => []

/-- Spec-side reading of a string field (display_name, language): the
value of a matching JSON key, or the empty string when missing. -/
def specStrField (kvs : List (String × Json)) (key : String) : String :=
  match lookupLast kvs key with
  | some (Json.str s) => s
  | _ => ""

/-- Spec-side reading of the env field: the value of a matching JSON
key, or the empty mapping when missing. -/
def specEnv (kvs : List (String × Json)) : List (String × Json) :=
  match lookupLast kvs "env" with
  | some (Json.obj o) => o
  | _ => []

theorem specArgv_eq (kvs : List (String × Json)) (a : List Json)
    (h : coerceArgv (lookupLast kvs "argv") = some a) : specArgv kvs = a := by
  unfold specArgv
  cases ho : lookupLast kvs "argv" with
  | none =>
    rw [ho] at h
    exact Option.some.inj h
  | some j =>
    rw [ho] at h
    cases j with
    | arr l => exact Option.some.inj h
    | str s => exact Option.noConfusion h
    | num n => exact Option.noConfusion h
    | bool b => exact Option.noConfusion h
    | null => exact Option.noConfusion h
    | obj o => exact Option.noConfusion h

theorem specStrField_eq (kvs : List (String × Json)) (key : String) (v : String)
    (h : coerceStr (lookupLast kvs key) = some v) : specStrField kvs key = v := by
  unfold specStrField
  cases ho : lookupLast kvs key with
  | none =>
    rw [ho] at h
    exact Option.some.inj h
  | some j =>
    rw [ho] at h
    cases j with
    | str s => exact Option.some.inj h
    | arr l => exact Option.noConfusion h
    | num n => exact Option.noConfusion h
    | bool b => exact Option.noConfusion h
    | null => exact Option.noConfusion h
    | obj o => exact Option.noConfusion h

theorem specEnv_eq (kvs : List (String × Json)) (e : List (String × Json))
    (h : coerceEnv (lookupLast kvs "env") = some e) : specEnv kvs = e := by
  unfold specEnv
  cases ho : lookupLast kvs "env" with
  | none =>
    rw [ho] at h
    exact Option.some.inj h
  | some j =>
    rw [ho] at h
    cases j with
    | obj o => exact Option.some.inj h
    | arr l => exact Option.noConfusion h
    | num n => exact Option.noConfusion h
    | bool b => exact Option.noConfusion h
    | null => exact Option.noConfusion h
    | str s => exact Option.noConfusion h

/-- C7: when resource_dir/kernel.json parses to a JSON object whose
argv, display_name, language and env values (where present) have the
trait-accepted shapes, from_resource_dir returns a KernelSpec whose
resource_dir is the given directory and whose four fields are read from
the matching JSON keys, a missing key defaulting to the field's empty
value; and the construction depends only on those four keys, so any
other JSON key is ignored. -/
theorem from_resource_dir_fields (fs : FileSystem) (rd : String)
    (kvs : List (String × Json))
    (hfile : fs.fileJson (pjoin rd "kernel.json") = some (Json.obj kvs))
    (ha : (coerceArgv (lookupLast kvs "argv")).isSome = true)
    (hd : (coerceStr (lookupLast kvs "display_name")).isSome = true)
    (hl : (coerceStr (lookupLast kvs "language")).isSome = true)
    (he : (coerceEnv (lookupLast kvs "env")).isSome = true) :
    KernelSpec.from_resource_dir fs rd
        = Except.ok ⟨specArgv kvs, specStrField kvs "display_name",
            specStrField kvs "language", specEnv kvs, rd⟩ ∧
      ∀ kvs₂ : List (String × Json),
        lookupLast kvs₂ "argv" = lookupLast kvs "argv" →
        lookupLast kvs₂ "display_name" = lookupLast kvs "display_name" →
        lookupLast kvs₂ "language" = lookupLast kvs "language" →
        lookupLast kvs₂ "env" = lookupLast kvs "env" →
        kernelSpecOfObj rd kvs₂ = kernelSpecOfObj rd kvs := by
  obtain ⟨a, ha'⟩ := Option.isSome_iff_exists.mp ha
  obtain ⟨dn, hd'⟩ := Option.isSome_iff_exists.mp hd
  obtain ⟨lg, hl'⟩ := Option.isSome_iff_exists.mp hl
  obtain ⟨e, he'⟩ := Option.isSome_iff_exists.mp he
  constructor
  · have h1 : KernelSpec.from_resource_dir fs rd = kernelSpecOfObj rd kvs := by
      unfold KernelSpec.from_resource_dir
      rw [hfile]
    rw [h1, kernelSpecOfObj, ha', hd', hl', he',
        specArgv_eq kvs a ha', specStrField_eq kvs "display_name" dn hd',
        specStrField_eq kvs "language" lg hl', specEnv_eq kvs e he']
  · intro kvs₂ e₁ e₂ e₃ e₄
    unfold kernelSpecOfObj
    rw [e₁, e₂, e₃, e₄]

/-- Parsed kernel.json object with no language or env keys and an extra
unknown key. -/
def w7kvs : List (String × Json) :=
  [("argv", Json.arr [Json.str "run"]), ("display_name", Json.str "W"),
   ("ignored_extra", Json.num 7)]

/-- Filesystem holding w7kvs as rd7/kernel.json. -/
def w7fs : FileSystem :=
  ⟨fun _ => false, fun _ => false, fun _ => [],
   fun p => if p = "rd7/kernel.json" then some (Json.obj w7kvs) else none⟩

/-- C7 witness: the concrete kernel.json with an unknown key and two
missing keys loads into the spec-side field readings. -/
theorem from_resource_dir_fields_witness :
    KernelSpec.from_resource_dir w7fs "rd7"
      = Except.ok ⟨specArgv w7kvs, specStrField w7kvs "display_name",
          specStrField w7kvs "language", specEnv w7kvs, "rd7"⟩ :=
  (from_resource_dir_fields w7fs "rd7" w7kvs rfl rfl rfl rfl rfl).1

/-! ## Claim C8 -/

/-- Filesystem holding the round-trip kernel.json of the claim at
rd8/kernel.json. -/
def rtFS : FileSystem :=
  ⟨fun _ => false, fun _ => false, fun _ => [],
   fun p =>
     if p = "rd8/kernel.json" then
       some (Json.obj [("argv", Json.arr [Json.str "a", Json.str "b"]),
                       ("display_name", Json.str "D"),
                       ("language", Json.str "python"),
                       ("env", Json.obj [("X", Json.str "1")])])
     else none⟩

/-- C8: loading the directory whose kernel.json is exactly
argv=[a,b], display_name=D, language=python, env=X:1 and serializing
with to_dict yields exactly the four-key dict argv, env, display_name,
language in insertion order, with no resource_dir key. -/
theorem from_resource_dir_to_dict_roundtrip :
    (KernelSpec.from_resource_dir rtFS "rd8").map KernelSpec.to_dict
        = Except.ok [("argv", Json.arr [Json.str "a", Json.str "b"]),
                     ("env", Json.obj [("X", Json.str "1")]),
                     ("display_name", Json.str "D"),
                     ("language", Json.str "python")] ∧
      (KernelSpec.from_resource_dir rtFS "rd8").map
          (fun s => dictLookup s.to_dict "resource_dir") = Except.ok none :=
  ⟨rfl, rfl⟩

/-! ## Claim C9 -/

/-- C9: install_kernel_spec lowercases the given or derived kernel
name; the destination is user_kernel_dir/name for a user install and
the first system path joined with kernels/name otherwise; when replace
is set and the destination is an existing directory it is removed
recursively before the copy; when replace is unset and the destination
exists, the call fails with the OS already-exists error and performs no
removal, leaving the filesystem state unchanged. -/
theorem install_kernel_spec_behaviour (sys : List String) (m : KernelSpecManager)
    (w : World) (src : String) (kn : Option String) (user replace : Bool)
    (name dest : String)
    (hname : name = strToLower (match kn with
      | none => basename src
      | some s => if s = "" then basename src else s))
    (hdest : dest = _get_destination_dir sys m name user) :
    ((user = true → dest = pjoin m.user_kernel_dir name) ∧
      (user = false → dest = pjoin (pjoin (sys.headD "") "kernels") name)) ∧
    (replace = true → w.isDirW dest = true →
      install_kernel_spec sys m w src kn user replace
        = copytree (rmtree w dest) src dest) ∧
    (replace = false → w.existsPath dest = true →
      install_kernel_spec sys m w src kn user replace
        = (w, some OSError.fileExists)) := by
  subst hname
  subst hdest
  refine ⟨⟨fun hu => ?_, fun hu => ?_⟩, fun hr hd => ?_, fun hr hd => ?_⟩
  · simp [_get_destination_dir, hu]
  · simp [_get_destination_dir, hu]
  · subst hr
    unfold install_kernel_spec
    simp [hd]
  · subst hr
    unfold install_kernel_spec
    simp [copytree, hd]

/-- Install-time filesystem in which the user destination for foo and
the source directory both exist. -/
def c9w : World := ⟨[("/u/kernels/foo", EntryKind.dirE), ("src9", EntryKind.dirE)]⟩

/-- Manager for the install fixture. -/
def c9m : KernelSpecManager := ⟨"/u/kernels", [], []⟩

/-- C9 witness: installing Foo as a user kernel without replace, while
/u/kernels/foo already exists, raises the already-exists error and
leaves the filesystem unchanged. -/
theorem install_kernel_spec_behaviour_witness :
    install_kernel_spec ["/sys"] c9m c9w "src9" (some "Foo") true false
      = (c9w, some OSError.fileExists) :=
  (install_kernel_spec_behaviour ["/sys"] c9m c9w "src9" (some "Foo") true false
      "foo" "/u/kernels/foo" (by decide) (by decide)).2.2 rfl (by decide)

/-! ## Claim C10 -/

/-- C10: an explicit empty-string kernel_name is falsy exactly like an
omitted one, so install_kernel_spec derives the name from the basename
of source_dir in both cases and the two calls agree on every input. -/
theorem install_kernel_spec_empty_name (sys : List String) (m : KernelSpecManager)
    (w : World) (src : String) (user replace : Bool) :
    install_kernel_spec sys m w src (some "") user replace
      = install_kernel_spec sys m w src none user replace := by
  rfl

end Kernelspec
